import Mathlib

/-!
Shallow embedding of the EPG collection core of `src/epg.rs`.

Conventions of the embedding:
* Rust machine integers are modelled as `Fin 256` (u8) / `Fin 65536` (u16)
  where the bound matters for array indexing, and as `Nat`/`Int` elsewhere;
  `usize` wrapping subtraction is modelled explicitly with `% 2 ^ 64`.
* `chrono::DateTime<Jst>` instants are modelled as `Int` seconds on the JST
  local timeline, and `chrono::Duration` as `Int` seconds; `date().and_hms(0,0,0)`
  becomes flooring to a multiple of 86400.
* Rust fixed arrays `[T; n]` are modelled as functions `Fin n -> T`.
* `HashMap<K, V>` is modelled as `K -> Option V`; `entry(k).and_modify(f)` and
  `entry(k).and_modify(f).or_insert(v)` become pointwise function updates.
* a Rust panic (out-of-bounds indexing) is modelled by returning `none`.
-/

/-- Descriptors attached to an EIT event (enum `EitDescriptor` in `epg.rs`). -/
inductive EitDescriptor
  | shortEvent (event_name : String) (text : String)
  | component (stream_content : Nat) (component_type : Nat)
  | audioComponent (component_type : Nat) (sampling_rate : Nat)
  | content (nibbles : List (Nat × Nat × Nat × Nat))
  | extendedEvent (items : List (String × String))
deriving DecidableEq

/-- One EIT event (struct `EitEvent` in `epg.rs`); `start_time` is a JST
instant in seconds, `duration` a duration in seconds. -/
structure EitEvent where
  event_id : Fin 65536
  start_time : Int
  duration : Int
  scrambled : Bool
  descriptors : List EitDescriptor
deriving DecidableEq

/-- `EitEvent::end_time`. -/
def EitEvent.end_time (e : EitEvent) : Int :=
  e.start_time + e.duration

/-- `EitEvent::is_overnight_event`: the event straddles `midnight` strictly. -/
def EitEvent.is_overnight_event (e : EitEvent) (midnight : Int) : Bool :=
  decide (e.start_time < midnight) && decide (e.end_time > midnight)

/-- One wire EIT section (struct `EitSection` in `epg.rs`). -/
structure EitSection where
  original_network_id : Fin 65536
  transport_stream_id : Fin 65536
  service_id : Fin 65536
  table_id : Fin 65536
  section_number : Fin 256
  last_section_number : Fin 256
  segment_last_section_number : Fin 256
  version_number : Fin 256
  events : List EitEvent
deriving DecidableEq

/-- `EitSection::table_index`: `self.table_id as usize - 0x50`.  The `usize`
subtraction wraps modulo `2 ^ 64` (release-mode semantics), so a `table_id`
below `0x50` yields an astronomically large index. -/
def EitSection.table_index (s : EitSection) : Nat :=
  (s.table_id.val + 2 ^ 64 - 0x50) % 2 ^ 64

/-- `EitSection::segment_index`: `self.section_number as usize / 8`. -/
def EitSection.segment_index (s : EitSection) : Nat :=
  s.section_number.val / 8

/-- `EitSection::section_index`: `self.section_number as usize % 8`. -/
def EitSection.section_index (s : EitSection) : Nat :=
  s.section_number.val % 8

/-- `EitSection::last_section_index`: `self.segment_last_section_number as usize % 8`. -/
def EitSection.last_section_index (s : EitSection) : Nat :=
  s.segment_last_section_number.val % 8

/-- Identifier of a schedule (struct `EpgScheduleId(u64)` in `epg.rs`). -/
structure EpgScheduleId where
  val : Nat
deriving DecidableEq

/-- `impl From<(u16, u16, u16)> for EpgScheduleId`. -/
def EpgScheduleId.fromTriple (nid tsid sid : Fin 65536) : EpgScheduleId :=
  ⟨nid.val <<< 32 ||| tsid.val <<< 16 ||| sid.val⟩

/-- `EpgScheduleId::nid`. -/
def EpgScheduleId.nid (id : EpgScheduleId) : Nat :=
  (id.val >>> 32) &&& 0xFFFF

/-- `EpgScheduleId::tsid`. -/
def EpgScheduleId.tsid (id : EpgScheduleId) : Nat :=
  (id.val >>> 16) &&& 0xFFFF

/-- `EpgScheduleId::sid`. -/
def EpgScheduleId.sid (id : EpgScheduleId) : Nat :=
  id.val &&& 0xFFFF

/-- `EitSection::epg_schedule_id`. -/
def EitSection.epg_schedule_id (s : EitSection) : EpgScheduleId :=
  EpgScheduleId.fromTriple s.original_network_id s.transport_stream_id s.service_id

/-- Stored form of a section (struct `EpgSection` in `epg.rs`). -/
structure EpgSection where
  version : Fin 256
  events : List EitEvent
deriving DecidableEq

/-- `impl From<EitSection> for EpgSection`: keep only version and events. -/
def EpgSection.fromSection (s : EitSection) : EpgSection :=
  { version := s.version_number, events := s.events }

/-- A segment of 8 section slots (struct `EpgSegment` in `epg.rs`). -/
structure EpgSegment where
  sections : Fin 8 → Option EpgSection

/-- `EpgSegment::default`: all 8 slots empty. -/
def EpgSegment.empty : EpgSegment :=
  ⟨fun _ => none⟩

/-- `EpgSegment::update`: first clear the slots `(last_section_index..8)`,
then store the incoming section at its `section_index`. -/
def EpgSegment.update (seg : EpgSegment) (s : EitSection) : EpgSegment :=
  let n := s.last_section_index + 1
  let cleared : Fin 8 → Option EpgSection :=
    fun i => if n ≤ i.val then none else seg.sections i
  ⟨fun i => if i.val = s.section_index then some (EpgSection.fromSection s) else cleared i⟩

/-- Applies a list of updates to a segment in order, oldest first. -/
def EpgSegment.updateSeq (seg : EpgSegment) (ss : List EitSection) : EpgSegment :=
  ss.foldl EpgSegment.update seg

/-- A table of 32 segments (struct `EpgTable` in `epg.rs`). -/
structure EpgTable where
  segments : Fin 32 → EpgSegment

/-- `EpgTable::default`: all 32 segments empty. -/
def EpgTable.empty : EpgTable :=
  ⟨fun _ => EpgSegment.empty⟩

/-- Bound used by `EpgTable.update`: a u8 section number yields a segment
index below 32. -/
theorem EitSection.segment_index_lt (s : EitSection) : s.segment_index < 32 :=
  Nat.div_lt_of_lt_mul (by exact lt_of_lt_of_le s.section_number.isLt (by norm_num))

/-- `EpgTable::update`: forward to `segments[segment_index]`. -/
def EpgTable.update (t : EpgTable) (s : EitSection) : EpgTable :=
  let i : Fin 32 := ⟨s.segment_index, s.segment_index_lt⟩
  ⟨fun j => if j = i then (t.segments i).update s else t.segments j⟩

/-- Channel kinds (enum `ChannelType` in `models.rs`, referenced by `epg.rs`). -/
inductive ChannelType
  | GR
  | BS
  | CS
  | SKY
deriving DecidableEq

/-- A channel (struct `EpgChannel` in `epg.rs`). -/
structure EpgChannel where
  name : String
  channel_type : ChannelType
  channel : String
  excluded_services : List (Fin 65536)
deriving DecidableEq

/-- A discovered service (struct `EpgService` in `epg.rs`). -/
structure EpgService where
  nid : Fin 65536
  tsid : Fin 65536
  sid : Fin 65536
  service_type : Fin 65536
  logo_id : Int
  remote_control_key_id : Fin 65536
  name : String
  channel : EpgChannel
deriving DecidableEq

/-- `EpgService::schedule_id`. -/
def EpgService.schedule_id (sv : EpgService) : EpgScheduleId :=
  EpgScheduleId.fromTriple sv.nid sv.tsid sv.sid

/-- A per-service schedule (struct `EpgSchedule` in `epg.rs`): a service
snapshot, 32 optional table slots, the overnight-events sidecar and the
last-update instant. -/
structure EpgSchedule where
  service : EpgService
  tables : Fin 32 → Option EpgTable
  overnight_events : List EitEvent
  updated_at : Int

/-- `EpgSchedule::new`: empty tables and overnight list.  The source sets
`updated_at` to `Jst::now()`; the current instant is passed explicitly as
`now` in this embedding. -/
def EpgSchedule.new (service : EpgService) (now : Int) : EpgSchedule :=
  { service := service
    tables := fun _ => none
    overnight_events := []
    updated_at := now }

/-- `EpgSchedule::update`: obtain-or-create `tables[table_index]` and forward.
The source indexes `self.tables[i]` with an unchecked `i`; an index outside
`[0, 32)` panics in Rust, which this embedding models as `none`. -/
def EpgSchedule.update (sched : EpgSchedule) (s : EitSection) : Option EpgSchedule :=
  if h : s.table_index < 32 then
    let i : Fin 32 := ⟨s.table_index, h⟩
    let t := (sched.tables i).getD EpgTable.empty
    some { sched with tables := fun j => if j = i then some (t.update s) else sched.tables j }
  else
    none

/-- `EpgSection::collect_overnight_events`: push every event straddling
`midnight` onto the accumulator, in stored order. -/
def EpgSection.collect_overnight_events
    (sec : EpgSection) (midnight : Int) (events : List EitEvent) : List EitEvent :=
  sec.events.foldl
    (fun acc e => if e.is_overnight_event midnight then acc ++ [e] else acc) events

/-- `EpgSegment::collect_overnight_events`: fold the non-empty slots in
index order. -/
def EpgSegment.collect_overnight_events
    (seg : EpgSegment) (midnight : Int) (events : List EitEvent) : List EitEvent :=
  (List.finRange 8).foldl
    (fun acc i =>
      match seg.sections i with
      | some sec => sec.collect_overnight_events midnight acc
      | none => acc) events

/-- `EpgTable::collect_overnight_events`: fold the 32 segments in index order. -/
def EpgTable.collect_overnight_events
    (t : EpgTable) (midnight : Int) (events : List EitEvent) : List EitEvent :=
  (List.finRange 32).foldl
    (fun acc i => (t.segments i).collect_overnight_events midnight acc) events

/-- `EpgSchedule::save_overnight_events`: collect the straddling events from
every present table, in index order, into a fresh list and replace
`overnight_events` with it. -/
def EpgSchedule.save_overnight_events (sched : EpgSchedule) (midnight : Int) : EpgSchedule :=
  let events :=
    (List.finRange 32).foldl
      (fun acc i =>
        match sched.tables i with
        | some t => t.collect_overnight_events midnight acc
        | none => acc) []
  { sched with overnight_events := events }

/-- Midnight of the civil day containing the JST instant `t`
(`timestamp.date().and_hms(0, 0, 0)` in the source). -/
def jstMidnight (t : Int) : Int :=
  t.fdiv 86400 * 86400

/-- Next midnight strictly after the JST instant `t`
(`now.date().succ().and_hms(0, 0, 0)` in the source). -/
def jstNextMidnight (t : Int) : Int :=
  (t.fdiv 86400 + 1) * 86400

/-- Body of the `and_modify` closure in `Epg::prepare_schedules`: rescue the
overnight events when the schedule was last updated before today's midnight,
then stamp `updated_at`. -/
def EpgSchedule.prepare_entry (sched : EpgSchedule) (midnight timestamp : Int) : EpgSchedule :=
  let sched' :=
    if sched.updated_at < midnight then sched.save_overnight_events midnight else sched
  { sched' with updated_at := timestamp }

/-- The schedule index `schedules: HashMap<EpgScheduleId, EpgSchedule>`,
modelled as a pointwise map. -/
def ScheduleMap : Type :=
  EpgScheduleId → Option EpgSchedule

/-- Body of the service loop in `Epg::prepare_schedules`:
`schedules.entry(id).and_modify(..).or_insert(EpgSchedule::new(&service))`. -/
def Epg.prepare_step (midnight timestamp : Int) (m : ScheduleMap) (sv : EpgService) :
    ScheduleMap :=
  let id := sv.schedule_id
  match m id with
  | some sched =>
    fun j => if j = id then some (sched.prepare_entry midnight timestamp) else m j
  | none =>
    fun j => if j = id then some (EpgSchedule.new sv timestamp) else m j

/-- `Epg::prepare_schedules`: walk the service list, updating or creating the
entry of each observed ServiceKey, then drop every entry whose key was a key
of the incoming index (`unused_ids`) but was not observed. -/
def Epg.prepare_schedules
    (schedules : ScheduleMap) (services : List EpgService) (timestamp : Int) : ScheduleMap :=
  let midnight := jstMidnight timestamp
  let processed : ScheduleMap :=
    services.foldl (Epg.prepare_step midnight timestamp) schedules
  fun id =>
    if (schedules id).isSome ∧ ∀ sv ∈ services, sv.schedule_id ≠ id then none
    else processed id

/-- One step of the read loop in `Epg::update_tables`: route a parsed section
to the schedule addressed by its ServiceKey via `entry(id).and_modify(...)`;
an absent key modifies nothing.  A panic inside `EpgSchedule::update`
propagates as `none`. -/
def Epg.apply_section (m : ScheduleMap) (s : EitSection) : Option ScheduleMap :=
  let id := s.epg_schedule_id
  match m id with
  | none => some m
  | some sched =>
    (sched.update s).map fun sched' =>
      fun j => if j = id then some sched' else m j

/-- Outcome of `Epg::update_tables` on a section stream. -/
inductive UpdateTablesOutcome
  | ok
  | parse_error
  | panicked
deriving DecidableEq

/-- `Epg::update_tables`: read the stream one line at a time; a line that
fails to parse (`none`) returns the error immediately, keeping every mutation
already applied (the map is mutated in place in the source).  The final map
is returned together with the outcome. -/
def Epg.update_tables
    (m : ScheduleMap) : List (Option EitSection) → ScheduleMap × UpdateTablesOutcome
  | [] => (m, UpdateTablesOutcome.ok)
  | none :: _ => (m, UpdateTablesOutcome.parse_error)
  | some s :: rest =>
    match Epg.apply_section m s with
    | some m' => Epg.update_tables m' rest
    | none => (m, UpdateTablesOutcome.panicked)

/-- `Epg::estimate_time`: the observed maximum plus 30 seconds, defaulting to
one hour before any successful pass. -/
def Epg.estimate_time (max_elapsed : Option Int) : Int :=
  match max_elapsed with
  | some max_e => max_e + 30
  | none => 3600

/-- `Epg::update_max_elapsed`. -/
def Epg.update_max_elapsed (max_elapsed : Option Int) (elapsed : Int) : Option Int :=
  let do_update :=
    match max_elapsed with
    | some max_e => if elapsed ≤ max_e then false else true
    | none => true
  if do_update then some elapsed else max_elapsed

/-- Decision taken by the daily guard at the top of `Epg::run`. -/
inductive RunDecision
  | postpone (delay : Int)
  | proceed
deriving DecidableEq

/-- Daily guard of `Epg::run`: with `remaining = next_midnight - now`, when
`remaining < estimate_time()` the pass is rescheduled `remaining + 10`
seconds later and `run` returns before the pass future is even built (no
tuner request, no mutation of `schedules` or `max_elapsed`); otherwise the
pass proceeds. -/
def Epg.run_guard (max_elapsed : Option Int) (now : Int) : RunDecision :=
  let remaining := jstNextMidnight now - now
  if remaining < Epg.estimate_time max_elapsed then
    RunDecision.postpone (remaining + 10)
  else
    RunDecision.proceed

/-- Modelled from the spec: video info built by `EpgVideoInfo::new` in
`models.rs`, which is not under `src/`; it records the Component descriptor's
two bytes. -/
structure EpgVideoInfo where
  stream_content : Nat
  component_type : Nat
deriving DecidableEq

/-- Modelled from the spec: audio info built by `EpgAudioInfo::new` in
`models.rs`, which is not under `src/`; it records the AudioComponent
descriptor's two bytes. -/
structure EpgAudioInfo where
  component_type : Nat
  sampling_rate : Nat
deriving DecidableEq

/-- Modelled from the spec: a genre built by `EpgGenre::new` in `models.rs`,
which is not under `src/`; it records one Content-descriptor nibble tuple. -/
structure EpgGenre where
  nibble : Nat × Nat × Nat × Nat
deriving DecidableEq

/-- Modelled from the spec: `EpgGenre::new`. -/
def EpgGenre.new (nibble : Nat × Nat × Nat × Nat) : EpgGenre :=
  ⟨nibble⟩

/-- Insertion of one key-value pair with `IndexMap` semantics: an existing
key keeps its position and takes the new value, a fresh key is appended. -/
def indexMapInsert (m : List (String × String)) (kv : String × String) :
    List (String × String) :=
  if m.any (fun p => p.1 = kv.1) then
    m.map (fun p => if p.1 = kv.1 then (p.1, kv.2) else p)
  else
    m ++ [kv]

/-- `IndexMap::extend` over the ExtendedEvent items, starting from an empty
map, as in `ProgramModel::update`. -/
def indexMapExtend (items : List (String × String)) : List (String × String) :=
  items.foldl indexMapInsert []

/-- Modelled from the spec: the program record (struct `ProgramModel` in
`models.rs`, not under `src/`).  Field names follow `ProgramModel::update` in
`epg.rs`; the descriptor-derived fields are optional and start unset, the
always-written fields start from zero defaults. -/
structure ProgramModel where
  id : Nat
  event_id : Nat
  service_id : Nat
  network_id : Nat
  start_at : Int
  duration : Int
  is_free : Bool
  name : Option String
  description : Option String
  video : Option EpgVideoInfo
  audio : Option EpgAudioInfo
  genres : Option (List EpgGenre)
  extended : Option (List (String × String))
deriving DecidableEq

/-- Modelled from the spec: `ProgramModel::make_id`, the stable 64-bit
composite of (eid, sid, nid). -/
def ProgramModel.make_id (eid sid nid : Nat) : Nat :=
  eid <<< 32 ||| sid <<< 16 ||| nid

/-- Modelled from the spec: `ProgramModel::new`, a fresh entry for the given
identifiers with every descriptor-derived field unset. -/
def ProgramModel.new (eid sid nid : Nat) : ProgramModel :=
  { id := ProgramModel.make_id eid sid nid
    event_id := eid
    service_id := sid
    network_id := nid
    start_at := 0
    duration := 0
    is_free := true
    name := none
    description := none
    video := none
    audio := none
    genres := none
    extended := none }

/-- Body of the descriptor loop in `ProgramModel::update` (in `epg.rs`):
set one field per descriptor kind. -/
def ProgramModel.apply_desc (q : ProgramModel) (desc : EitDescriptor) : ProgramModel :=
  match desc with
  | EitDescriptor.shortEvent event_name text =>
    { q with name := some event_name, description := some text }
  | EitDescriptor.component sc ct =>
    { q with video := some ⟨sc, ct⟩ }
  | EitDescriptor.audioComponent ct sr =>
    { q with audio := some ⟨ct, sr⟩ }
  | EitDescriptor.content nibbles =>
    { q with genres := some (nibbles.map EpgGenre.new) }
  | EitDescriptor.extendedEvent items =>
    { q with extended := some (indexMapExtend items) }

/-- `ProgramModel::update` (in `epg.rs`): overwrite `start_at`, `duration`
and `is_free` from the event, then set one field per descriptor in order. -/
def ProgramModel.update (p : ProgramModel) (event : EitEvent) : ProgramModel :=
  let p0 :=
    { p with
      start_at := event.start_time
      duration := event.duration
      is_free := !event.scrambled }
  event.descriptors.foldl ProgramModel.apply_desc p0

/-- The program map `HashMap<u64, ProgramModel>`, modelled pointwise. -/
def ProgramMap : Type :=
  Nat → Option ProgramModel

/-- Body of the per-event loops in `EpgSchedule::collect_epg_programs` and
`EpgSection::collect_epg_programs`:
`programs.entry(make_id(eid, sid, nid)).or_insert(new(..)).update(event)`. -/
def Epg.apply_event (sid nid : Nat) (programs : ProgramMap) (event : EitEvent) : ProgramMap :=
  let eid := event.event_id.val
  let key := ProgramModel.make_id eid sid nid
  let entry := (programs key).getD (ProgramModel.new eid sid nid)
  fun k => if k = key then some (entry.update event) else programs k

/-- `EpgSection::collect_epg_programs`: fold the stored events in order. -/
def EpgSection.collect_epg_programs
    (sec : EpgSection) (sched_id : EpgScheduleId) (programs : ProgramMap) : ProgramMap :=
  sec.events.foldl (Epg.apply_event sched_id.sid sched_id.nid) programs

/-- `EpgSegment::collect_epg_programs`: fold the non-empty slots 0..7. -/
def EpgSegment.collect_epg_programs
    (seg : EpgSegment) (sched_id : EpgScheduleId) (programs : ProgramMap) : ProgramMap :=
  (List.finRange 8).foldl
    (fun m i =>
      match seg.sections i with
      | some sec => sec.collect_epg_programs sched_id m
      | none => m) programs

/-- `EpgTable::collect_epg_programs`: fold the segments 0..31. -/
def EpgTable.collect_epg_programs
    (t : EpgTable) (sched_id : EpgScheduleId) (programs : ProgramMap) : ProgramMap :=
  (List.finRange 32).foldl
    (fun m i => (t.segments i).collect_epg_programs sched_id m) programs

/-- `EpgSchedule::collect_epg_programs`: fold `overnight_events` first, then
the present tables 0..31. -/
def EpgSchedule.collect_epg_programs
    (sched : EpgSchedule) (sched_id : EpgScheduleId) (programs : ProgramMap) : ProgramMap :=
  let programs' :=
    sched.overnight_events.foldl (Epg.apply_event sched_id.sid sched_id.nid) programs
  (List.finRange 32).foldl
    (fun m i =>
      match sched.tables i with
      | some t => t.collect_epg_programs sched_id m
      | none => m) programs'

/-- Traversal order of a segment during program folding: section slots 0..7,
events in stored order. -/
def EpgSegment.event_list (seg : EpgSegment) : List EitEvent :=
  ((List.finRange 8).map fun i =>
    match seg.sections i with
    | some sec => sec.events
    | none => []).flatten

/-- Traversal order of a table during program folding: segments 0..31. -/
def EpgTable.event_list (t : EpgTable) : List EitEvent :=
  ((List.finRange 32).map fun i => (t.segments i).event_list).flatten

/-- Traversal order of a schedule during program folding: the overnight
events first, then tables 0..31. -/
def EpgSchedule.event_list (sched : EpgSchedule) : List EitEvent :=
  sched.overnight_events ++
    ((List.finRange 32).map fun i =>
      match sched.tables i with
      | some t => t.event_list
      | none => []).flatten

/-- Concrete channel used by the concrete instances below. -/
def testChannel : EpgChannel :=
  { name := "ch", channel_type := ChannelType.GR, channel := "1", excluded_services := [] }

/-- Concrete service with ServiceKey (1, 2, 3). -/
def testService : EpgService :=
  { nid := 1, tsid := 2, sid := 3, service_type := 1, logo_id := 0,
    remote_control_key_id := 0, name := "sv", channel := testChannel }

/-- Builds a section of service (1, 2, 3) with the given table id, section
number, segment last section number and events. -/
def mkSection (tid : Fin 65536) (sn slsn : Fin 256) (events : List EitEvent) : EitSection :=
  { original_network_id := 1, transport_stream_id := 2, service_id := 3,
    table_id := tid, section_number := sn, last_section_number := 0xF8,
    segment_last_section_number := slsn, version_number := 1, events := events }

/-- Concrete event straddling the midnight instant 86400: it starts at 84600
(23:30 of day 0) and lasts 3600 seconds. -/
def eventOvernight : EitEvent :=
  { event_id := 2, start_time := 84600, duration := 3600, scrambled := false,
    descriptors := [] }

/-- Concrete event carrying the same event id as `eventOvernight` but a later
start, stored in a table section. -/
def eventLate : EitEvent :=
  { event_id := 2, start_time := 90000, duration := 1800, scrambled := false,
    descriptors := [] }

/-- Concrete section holding `eventOvernight`. -/
def secOvernight : EpgSection :=
  { version := 1, events := [eventOvernight] }

/-- Concrete segment with `secOvernight` in slot 1. -/
def segOvernight : EpgSegment :=
  ⟨fun j => if j = 1 then some secOvernight else none⟩

/-- Concrete table with `segOvernight` as segment 7. -/
def tableOvernight : EpgTable :=
  ⟨fun j => if j = 7 then segOvernight else EpgSegment.empty⟩

/-- Concrete schedule with `tableOvernight` in table slot 0. -/
def schedOvernight : EpgSchedule :=
  { service := testService
    tables := fun j => if j = 0 then some tableOvernight else none
    overnight_events := []
    updated_at := 0 }

/-- Concrete table holding `eventLate` in segment 0, section slot 0. -/
def tableCollide : EpgTable :=
  ⟨fun j =>
    if j = 0 then ⟨fun i => if i = 0 then some ⟨1, [eventLate]⟩ else none⟩
    else EpgSegment.empty⟩

/-- Concrete schedule whose overnight sidecar and table slot 0 both carry an
event with event id 2: the section event is visited after the overnight one. -/
def schedCollide : EpgSchedule :=
  { service := testService
    tables := fun j => if j = 0 then some tableCollide else none
    overnight_events := [eventOvernight]
    updated_at := 0 }

/-- The ServiceKey (1, 2, 3) as a schedule id. -/
def testScheduleId : EpgScheduleId :=
  EpgScheduleId.fromTriple 1 2 3

/-- Concrete out-of-profile section with table id 0x70. -/
def c1Sec : EitSection :=
  mkSection 0x70 0 0 []

/-- Concrete out-of-profile section with table id 0x4F. -/
def c1LowSec : EitSection :=
  mkSection 0x4F 0 0 []

/-- Concrete section with section index 1 above its last section index 0. -/
def c4Sec : EitSection :=
  mkSection 0x50 1 0 []

/-- Concrete section with section index 0 equal to its last section index 0. -/
def c4bSec : EitSection :=
  mkSection 0x50 0 0 []

/-- Concrete section with section index 2 above its last section index 0. -/
def c5Sec : EitSection :=
  mkSection 0x50 2 0 []

/-- Concrete section with section index 1 equal to its last section index 1. -/
def c5bSec : EitSection :=
  mkSection 0x50 1 1 []

/-- Concrete in-profile section of service (1, 2, 3) used for the stream
claims. -/
def c9Sec : EitSection :=
  mkSection 0x50 0 0 []

/-- Folding a step that only ever appends elements satisfying `P` keeps every
member of the result either a member of the start accumulator or a `P`
element. -/
theorem foldl_mem_or {ι α : Type} {P : α → Prop} (step : List α → ι → List α)
    (hstep : ∀ acc i e, e ∈ step acc i → e ∈ acc ∨ P e) :
    ∀ (l : List ι) (acc : List α) (e : α), e ∈ l.foldl step acc → e ∈ acc ∨ P e := by
  intro l
  induction l with
  | nil => intro acc e h; exact Or.inl h
  | cons i tl ih =>
    intro acc e h
    rcases ih (step acc i) e h with h' | h'
    · exact hstep acc i e h'
    · exact Or.inr h'

/-- Members of a section's overnight collection are either old accumulator
members or straddle the midnight. -/
theorem EpgSection.collect_overnight_mem_section
    {sec : EpgSection} {midnight : Int} {evs : List EitEvent} {e : EitEvent}
    (h : e ∈ sec.collect_overnight_events midnight evs) :
    e ∈ evs ∨ e.is_overnight_event midnight = true := by
  refine foldl_mem_or (P := fun x => x.is_overnight_event midnight = true) _ ?_ sec.events evs e h
  intro acc ev x hx
  by_cases hov : ev.is_overnight_event midnight
  · simp only [hov, if_true, List.mem_append, List.mem_singleton] at hx
    rcases hx with hx | rfl
    · exact Or.inl hx
    · exact Or.inr hov
  · simp only [hov, if_false] at hx
    exact Or.inl hx

/-- Members of a segment's overnight collection are either old accumulator
members or straddle the midnight. -/
theorem EpgSegment.collect_overnight_mem_segment
    {seg : EpgSegment} {midnight : Int} {evs : List EitEvent} {e : EitEvent}
    (h : e ∈ seg.collect_overnight_events midnight evs) :
    e ∈ evs ∨ e.is_overnight_event midnight = true := by
  refine foldl_mem_or (P := fun x => x.is_overnight_event midnight = true) _ ?_ (List.finRange 8) evs e h
  intro acc i x hx
  cases hsec : seg.sections i with
  | none => simp only [hsec] at hx; exact Or.inl hx
  | some sec =>
    simp only [hsec] at hx
    exact EpgSection.collect_overnight_mem_section hx

/-- Members of a table's overnight collection are either old accumulator
members or straddle the midnight. -/
theorem EpgTable.collect_overnight_mem_table
    {t : EpgTable} {midnight : Int} {evs : List EitEvent} {e : EitEvent}
    (h : e ∈ t.collect_overnight_events midnight evs) :
    e ∈ evs ∨ e.is_overnight_event midnight = true := by
  refine foldl_mem_or (P := fun x => x.is_overnight_event midnight = true) _ ?_ (List.finRange 32) evs e h
  intro acc i x hx
  exact EpgSegment.collect_overnight_mem_segment hx

/-- Claim C2: after `save_overnight_events(M)` every event in the
`overnight_events` sidecar starts strictly before `M` and ends strictly after
`M`; an event whose end equals `M` exactly is excluded by the strictness. -/
theorem c2_overnight_purity (sched : EpgSchedule) (M : Int) (e : EitEvent)
    (h : e ∈ (sched.save_overnight_events M).overnight_events) :
    e.start_time < M ∧ M < e.start_time + e.duration := by
  have h' : e ∈ (List.finRange 32).foldl
      (fun acc i =>
        match sched.tables i with
        | some t => t.collect_overnight_events M acc
        | none => acc) [] := h
  have hmem : e ∈ ([] : List EitEvent) ∨ e.is_overnight_event M = true := by
    refine foldl_mem_or (P := fun x => x.is_overnight_event M = true) _ ?_ (List.finRange 32) [] e h'
    intro acc i x hx
    cases ht : sched.tables i with
    | none => simp only [ht] at hx; exact Or.inl hx
    | some t =>
      simp only [ht] at hx
      exact EpgTable.collect_overnight_mem_table hx
  rcases hmem with hmem | hmem
  · cases hmem
  · have := of_decide_eq_true (Bool.and_elim_left hmem)
    have h2 := of_decide_eq_true (Bool.and_elim_right hmem)
    exact ⟨this, h2⟩

/-- Witness for claim C2 at a concrete schedule and midnight. -/
theorem c2_overnight_purity_witness :
    eventOvernight ∈ (schedOvernight.save_overnight_events 86400).overnight_events ∧
    eventOvernight.start_time < 86400 ∧
    86400 < eventOvernight.start_time + eventOvernight.duration :=
  ⟨by decide, c2_overnight_purity schedOvernight 86400 eventOvernight (by decide)⟩

/-- Characterization of one `EpgSegment::update`: the incoming section lands
at its own section index (even past the truncation point), slots beyond the
last section index are cleared, the rest keep their old contents. -/
theorem EpgSegment.update_sections_spec (seg : EpgSegment) (s : EitSection) (j : Fin 8) :
    (seg.update s).sections j =
      if j.val = s.section_index then some (EpgSection.fromSection s)
      else if s.last_section_index + 1 ≤ j.val then none
      else seg.sections j :=
  rfl

/-- Claim C4 fails on the code: updating a fresh segment with a section whose
section index 1 exceeds its last section index 0 leaves slot 1 non-empty,
although the claim requires every slot in (0, 8) to be empty afterwards. -/
theorem c4_truncation_counterexample :
    c4Sec.last_section_index < (1 : Fin 8).val ∧
    (EpgSegment.empty.update c4Sec).sections 1 ≠ none := by
  constructor
  · decide
  · intro h
    simp only [EpgSegment.update_sections_spec] at h
    revert h
    decide

/-- Claim C4 as amended: after `EpgSegment::update`, every slot strictly
beyond the last section index other than the incoming section's own index is
empty, and the incoming section's slot holds exactly its version and events. -/
theorem c4_truncation_amended (seg : EpgSegment) (s : EitSection) (j : Fin 8) :
    (j.val = s.section_index →
      (seg.update s).sections j = some { version := s.version_number, events := s.events }) ∧
    (s.last_section_index < j.val → j.val ≠ s.section_index →
      (seg.update s).sections j = none) := by
  constructor
  · intro hj
    rw [EpgSegment.update_sections_spec, if_pos hj]
    rfl
  · intro hL hj
    rw [EpgSegment.update_sections_spec, if_neg hj, if_pos (Nat.succ_le_of_lt hL)]

/-- Witness for the amended claim C4 at a concrete segment update. -/
theorem c4_truncation_amended_witness :
    (EpgSegment.empty.update c4bSec).sections 0 = some { version := 1, events := [] } ∧
    (EpgSegment.empty.update c4bSec).sections 1 = none :=
  ⟨(c4_truncation_amended EpgSegment.empty c4bSec 0).1 (by decide),
   (c4_truncation_amended EpgSegment.empty c4bSec 1).2 (by decide) (by decide)⟩

/-- Claim C5 fails on the code: from the empty segment, one update whose
section index 2 exceeds its last section index 0 reaches a state where slot 2
is non-empty although the claimed invariant requires every slot in (0, 8) to
be empty. -/
theorem c5_segment_invariant_counterexample :
    c5Sec.last_section_index = 0 ∧
    (EpgSegment.empty.updateSeq [c5Sec]).sections 2 ≠ none := by
  constructor
  · decide
  · intro h
    have h' : (EpgSegment.empty.update c5Sec).sections 2 = none := h
    rw [EpgSegment.update_sections_spec] at h'
    revert h'
    decide

/-- Claim C5 as amended: in any segment state reached from any start by a
nonempty update sequence, every slot strictly beyond the most recent update's
last section index is empty except the most recent update's own section
index, whose slot holds that section's version and events (and so may be
non-empty even when its index exceeds the last section index). -/
theorem c5_segment_invariant_amended
    (seg : EpgSegment) (ss : List EitSection) (s : EitSection) (j : Fin 8) :
    (s.last_section_index < j.val → j.val ≠ s.section_index →
      (seg.updateSeq (ss ++ [s])).sections j = none) ∧
    (j.val = s.section_index →
      (seg.updateSeq (ss ++ [s])).sections j
        = some { version := s.version_number, events := s.events }) := by
  have hsplit : seg.updateSeq (ss ++ [s]) = (seg.updateSeq ss).update s := by
    unfold EpgSegment.updateSeq
    rw [List.foldl_append]
    rfl
  constructor
  · intro hL hj
    rw [hsplit, EpgSegment.update_sections_spec, if_neg hj, if_pos (Nat.succ_le_of_lt hL)]
  · intro hj
    rw [hsplit, EpgSegment.update_sections_spec, if_pos hj]
    rfl

/-- Witness for the amended claim C5 at a concrete two-update sequence. -/
theorem c5_segment_invariant_amended_witness :
    (EpgSegment.empty.updateSeq ([c5Sec] ++ [c5bSec])).sections 2 = none ∧
    (EpgSegment.empty.updateSeq ([c5Sec] ++ [c5bSec])).sections 1
      = some { version := 1, events := [] } :=
  ⟨(c5_segment_invariant_amended EpgSegment.empty [c5Sec] c5bSec 2).1 (by decide) (by decide),
   (c5_segment_invariant_amended EpgSegment.empty [c5Sec] c5bSec 1).2 (by decide)⟩

/-- Claim C1 names a guard the code does not have: for the out-of-profile
table ids 0x70 and 0x4F the index computation `table_id - 0x50` of
`EitSection::table_index` leaves `[0, 32)` (wrapping below 0x50), and
`EpgSchedule::update` then panics on the `tables[i]` access — modelled as
`none` — instead of rejecting the section; no slot is modified only because
the panic aborts first. -/
theorem c1_out_of_profile_panics :
    ((0x70 : Nat) ≤ c1Sec.table_id.val ∧ c1Sec.table_index = 32 ∧
      ¬ c1Sec.table_index < 32) ∧
    (c1LowSec.table_id.val < 0x50 ∧ c1LowSec.table_index = 2 ^ 64 - 1 ∧
      ¬ c1LowSec.table_index < 32) ∧
    (∀ sched : EpgSchedule, sched.update c1Sec = none) ∧
    (∀ sched : EpgSchedule, sched.update c1LowSec = none) := by
  refine ⟨by constructor; decide; constructor; decide; decide,
          by constructor; decide; constructor; decide; decide, ?_, ?_⟩
  · intro sched
    have h : ¬ c1Sec.table_index < 32 := by decide
    unfold EpgSchedule.update
    rw [dif_neg h]
  · intro sched
    have h : ¬ c1LowSec.table_index < 32 := by decide
    unfold EpgSchedule.update
    rw [dif_neg h]

/-- Claim C6: the daily guard of `Epg::run` postpones the pass by
`remaining + 10` seconds, touching no state, exactly when the time remaining
to the next midnight is below the estimate; the estimate is the recorded
maximum plus 30 seconds, or one hour when no pass has succeeded yet. -/
theorem c6_daily_guard (max_elapsed : Option Int) (now : Int) :
    (jstNextMidnight now - now < Epg.estimate_time max_elapsed →
      Epg.run_guard max_elapsed now
        = RunDecision.postpone (jstNextMidnight now - now + 10)) ∧
    (Epg.estimate_time max_elapsed ≤ jstNextMidnight now - now →
      Epg.run_guard max_elapsed now = RunDecision.proceed) ∧
    Epg.estimate_time none = 3600 ∧
    (∀ max_e : Int, Epg.estimate_time (some max_e) = max_e + 30) := by
  refine ⟨?_, ?_, rfl, fun _ => rfl⟩
  · intro h
    unfold Epg.run_guard
    rw [if_pos h]
  · intro h
    unfold Epg.run_guard
    rw [if_neg (not_lt.mpr h)]

/-- Witness for claim C6: the spec scenario with a 50-minute recorded
maximum and the pass invoked at 23:30 JST (instant 1571009400, a JST instant
of 2019-10-13T23:30:00) is postponed by remaining + 10 = 1810 seconds, that
is, until 00:00:10 of the next day. -/
theorem c6_daily_guard_witness :
    Epg.run_guard (some 3000) 1571009400
      = RunDecision.postpone (jstNextMidnight 1571009400 - 1571009400 + 10) ∧
    jstNextMidnight 1571009400 - 1571009400 + 10 = 1810 :=
  ⟨(c6_daily_guard (some 3000) 1571009400).1 (by decide), by decide⟩

/-- Claim C10: `update_max_elapsed` keeps the maximum unchanged on a smaller
or equal elapsed time, replaces it on a larger one or when unset, so the
stored value is the running maximum and the time estimate never decreases
across successful passes (each of which leaves the maximum set). -/
theorem c10_max_elapsed_monotone (m e : Int) :
    (e ≤ m → Epg.update_max_elapsed (some m) e = some m) ∧
    (m < e → Epg.update_max_elapsed (some m) e = some e) ∧
    Epg.update_max_elapsed none e = some e ∧
    Epg.update_max_elapsed (some m) e = some (max m e) ∧
    Epg.estimate_time (some m) ≤ Epg.estimate_time (Epg.update_max_elapsed (some m) e) := by
  by_cases h : e ≤ m
  · refine ⟨fun _ => ?_, fun h' => absurd h (not_le.mpr h'), rfl, ?_, ?_⟩
    · unfold Epg.update_max_elapsed
      simp [h]
    · unfold Epg.update_max_elapsed
      simp [h, max_eq_left h]
    · unfold Epg.update_max_elapsed Epg.estimate_time
      simp [h]
  · have h' : m < e := not_le.mp h
    refine ⟨fun hc => absurd hc h, fun _ => ?_, rfl, ?_, ?_⟩
    · unfold Epg.update_max_elapsed
      simp [h]
    · unfold Epg.update_max_elapsed
      simp [h, max_eq_right (le_of_lt h')]
    · unfold Epg.update_max_elapsed Epg.estimate_time
      simp [h]
      omega

/-- Witness for claim C10 at concrete elapsed times. -/
theorem c10_max_elapsed_monotone_witness :
    Epg.update_max_elapsed (some 5) 3 = some 5 ∧
    Epg.update_max_elapsed (some 3) 5 = some 5 :=
  ⟨(c10_max_elapsed_monotone 5 3).1 (by decide),
   (c10_max_elapsed_monotone 3 5).2.1 (by decide)⟩

/-- One `prepare_step` leaves every key other than the service's own key
untouched. -/
theorem Epg.prepare_step_ne (midnight timestamp : Int) (m : ScheduleMap)
    (sv : EpgService) (id : EpgScheduleId) (h : sv.schedule_id ≠ id) :
    Epg.prepare_step midnight timestamp m sv id = m id := by
  unfold Epg.prepare_step
  have hne : ¬ id = sv.schedule_id := fun hh => h hh.symm
  cases hm : m sv.schedule_id <;> simp only [hm] <;> rw [if_neg hne]

/-- One `prepare_step` leaves the service's own key populated. -/
theorem Epg.prepare_step_self_isSome (midnight timestamp : Int) (m : ScheduleMap)
    (sv : EpgService) :
    (Epg.prepare_step midnight timestamp m sv sv.schedule_id).isSome := by
  unfold Epg.prepare_step
  cases hm : m sv.schedule_id <;> simp [hm]

/-- One `prepare_step` never removes a populated key. -/
theorem Epg.prepare_step_isSome_mono (midnight timestamp : Int) (m : ScheduleMap)
    (sv : EpgService) (id : EpgScheduleId) (h : (m id).isSome) :
    (Epg.prepare_step midnight timestamp m sv id).isSome := by
  by_cases hid : sv.schedule_id = id
  · subst hid
    exact Epg.prepare_step_self_isSome midnight timestamp m sv
  · rw [Epg.prepare_step_ne midnight timestamp m sv id hid]
    exact h

/-- The service fold leaves unobserved keys untouched. -/
theorem Epg.prepare_fold_not_mem (midnight timestamp : Int) :
    ∀ (services : List EpgService) (m : ScheduleMap) (id : EpgScheduleId),
      (∀ sv ∈ services, sv.schedule_id ≠ id) →
      services.foldl (Epg.prepare_step midnight timestamp) m id = m id := by
  intro services
  induction services with
  | nil => intro m id _; rfl
  | cons sv tl ih =>
    intro m id h
    have h1 : sv.schedule_id ≠ id := h sv (List.mem_cons_self sv tl)
    rw [List.foldl_cons, ih _ id (fun x hx => h x (List.mem_cons_of_mem sv hx)),
        Epg.prepare_step_ne midnight timestamp m sv id h1]

/-- The service fold never removes a populated key. -/
theorem Epg.prepare_fold_isSome_mono (midnight timestamp : Int) :
    ∀ (services : List EpgService) (m : ScheduleMap) (id : EpgScheduleId),
      (m id).isSome →
      (services.foldl (Epg.prepare_step midnight timestamp) m id).isSome := by
  intro services
  induction services with
  | nil => intro m id h; exact h
  | cons sv tl ih =>
    intro m id h
    rw [List.foldl_cons]
    exact ih _ id (Epg.prepare_step_isSome_mono midnight timestamp m sv id h)

/-- The service fold populates every observed key. -/
theorem Epg.prepare_fold_mem_isSome (midnight timestamp : Int) :
    ∀ (services : List EpgService) (m : ScheduleMap) (id : EpgScheduleId),
      id ∈ services.map EpgService.schedule_id →
      (services.foldl (Epg.prepare_step midnight timestamp) m id).isSome := by
  intro services
  induction services with
  | nil => intro m id h; cases h
  | cons sv tl ih =>
    intro m id h
    rw [List.map_cons, List.mem_cons] at h
    rw [List.foldl_cons]
    rcases h with h | h
    · subst h
      exact Epg.prepare_fold_isSome_mono midnight timestamp tl _ _
        (Epg.prepare_step_self_isSome midnight timestamp m sv)
    · exact ih _ id h

/-- Claim C3: after `prepare_schedules(S, timestamp)` the populated keys of
the schedule index are exactly the ServiceKeys derived from `S`: observed
keys are updated or freshly created, and keys not observed are removed. -/
theorem c3_reap_completeness (schedules : ScheduleMap) (services : List EpgService)
    (timestamp : Int) (id : EpgScheduleId) :
    (Epg.prepare_schedules schedules services timestamp id).isSome
      ↔ id ∈ services.map EpgService.schedule_id := by
  unfold Epg.prepare_schedules
  by_cases hmem : id ∈ services.map EpgService.schedule_id
  · have hobs : ¬ ∀ sv ∈ services, sv.schedule_id ≠ id := by
      rw [List.mem_map] at hmem
      rcases hmem with ⟨sv, hsv, hid⟩
      intro hall
      exact hall sv hsv hid
    rw [if_neg (fun hc => hobs hc.2)]
    simp only [hmem, iff_true]
    exact Epg.prepare_fold_mem_isSome (jstMidnight timestamp) timestamp services
      schedules id hmem
  · have hobs : ∀ sv ∈ services, sv.schedule_id ≠ id := by
      intro sv hsv hid
      exact hmem (List.mem_map.mpr ⟨sv, hsv, hid⟩)
    simp only [hmem, iff_false]
    by_cases hsome : (schedules id).isSome
    · rw [if_pos ⟨hsome, hobs⟩]
      simp
    · rw [if_neg (fun hc => hsome hc.1)]
      rw [Epg.prepare_fold_not_mem (jstMidnight timestamp) timestamp services
        schedules id hobs]
      exact hsome

/-- Unfolding equation for `Epg.apply_section` with its let binding reduced. -/
theorem Epg.apply_section_eq (m : ScheduleMap) (s : EitSection) :
    Epg.apply_section m s =
      match m s.epg_schedule_id with
      | none => some m
      | some sched =>
        (sched.update s).map fun sched' =>
          fun j => if j = s.epg_schedule_id then some sched' else m j :=
  rfl

/-- Claim C8: one step of the table-update loop routes a parsed section to
the schedule keyed by its (onid, tsid, sid) and nothing else: a section whose
key is absent is dropped leaving the whole index unchanged, every other key
keeps its schedule, the key set is unchanged, the addressed key receives
exactly the updated schedule, and the loop continues on the updated index. -/
theorem c8_section_routing (m : ScheduleMap) (s : EitSection) :
    (m s.epg_schedule_id = none → Epg.apply_section m s = some m) ∧
    (∀ m', Epg.apply_section m s = some m' →
      (∀ j, j ≠ s.epg_schedule_id → m' j = m j) ∧
      (∀ j, (m' j).isSome = (m j).isSome) ∧
      (∀ sched, m s.epg_schedule_id = some sched →
        m' s.epg_schedule_id = sched.update s)) ∧
    (∀ m' rest, Epg.apply_section m s = some m' →
      Epg.update_tables m (some s :: rest) = Epg.update_tables m' rest) := by
  refine ⟨?_, ?_, ?_⟩
  · intro h
    rw [Epg.apply_section_eq, h]
  · intro m' hm'
    rw [Epg.apply_section_eq] at hm'
    cases hmk : m s.epg_schedule_id with
    | none =>
      rw [hmk] at hm'
      injection hm' with hm'
      subst hm'
      refine ⟨fun j _ => rfl, fun j => rfl, fun sched hsched => ?_⟩
      cases hsched
    | some sched =>
      have hm2 : (sched.update s).map
          (fun sched' => fun j => if j = s.epg_schedule_id then some sched' else m j)
            = some m' := by
        rw [hmk] at hm'
        exact hm'
      cases hupd : sched.update s with
      | none =>
        rw [hupd, Option.map_none'] at hm2
        cases hm2
      | some sched' =>
        rw [hupd, Option.map_some'] at hm2
        injection hm2 with hm2
        subst hm2
        refine ⟨fun j hj => ?_, fun j => ?_, fun sched0 hsched0 => ?_⟩
        · show (if j = s.epg_schedule_id then some sched' else m j) = m j
          rw [if_neg hj]
        · by_cases hj : j = s.epg_schedule_id
          · subst hj
            show (if s.epg_schedule_id = s.epg_schedule_id then some sched'
                  else m s.epg_schedule_id).isSome
                = (m s.epg_schedule_id).isSome
            rw [if_pos rfl, hmk]
            rfl
          · show (if j = s.epg_schedule_id then some sched' else m j).isSome = (m j).isSome
            rw [if_neg hj]
        · have hs0 : sched = sched0 := Option.some_injective _ hsched0
          show (if s.epg_schedule_id = s.epg_schedule_id then some sched'
                else m s.epg_schedule_id)
              = sched0.update s
          rw [if_pos rfl, ← hs0, hupd]
  · intro m' rest hm'
    show (match Epg.apply_section m s with
          | some m'' => Epg.update_tables m'' rest
          | none => (m, UpdateTablesOutcome.panicked)) = Epg.update_tables m' rest
    rw [hm']

/-- Witness for claim C8: a section addressed at an empty index is dropped. -/
theorem c8_section_routing_witness :
    Epg.apply_section (fun _ => none) c9Sec = some (fun _ => none) :=
  (c8_section_routing (fun _ => none) c9Sec).1 rfl

/-- Claim C9: if the well-formed prefix of a stream processes cleanly to an
index `mg`, a malformed line right after it makes `update_tables` return the
parse error at that line with the index exactly `mg`: the earlier mutations
are kept and nothing after the bad line is processed. -/
theorem c9_parse_error_aborts (m : ScheduleMap) (good : List EitSection)
    (rest : List (Option EitSection)) (mg : ScheduleMap)
    (h : Epg.update_tables m (good.map some) = (mg, UpdateTablesOutcome.ok)) :
    Epg.update_tables m (good.map some ++ none :: rest)
      = (mg, UpdateTablesOutcome.parse_error) := by
  induction good generalizing m with
  | nil =>
    have hm : m = mg := congrArg Prod.fst h
    subst hm
    rfl
  | cons s tl ih =>
    rw [List.map_cons] at h ⊢
    rw [List.cons_append]
    show (match Epg.apply_section m s with
          | some m'' => Epg.update_tables m'' (tl.map some ++ none :: rest)
          | none => (m, UpdateTablesOutcome.panicked))
        = (mg, UpdateTablesOutcome.parse_error)
    have h' : (match Epg.apply_section m s with
          | some m'' => Epg.update_tables m'' (tl.map some)
          | none => (m, UpdateTablesOutcome.panicked))
        = (mg, UpdateTablesOutcome.ok) := h
    cases hap : Epg.apply_section m s with
    | none =>
      rw [hap] at h'
      have : UpdateTablesOutcome.panicked = UpdateTablesOutcome.ok :=
        congrArg Prod.snd h'
      cases this
    | some m'' =>
      rw [hap] at h'
      exact ih m'' h'

/-- Witness for claim C9: one good line, then a malformed line, then one more
line; the error is reported and the good line's (identity) mutation kept. -/
theorem c9_parse_error_aborts_witness :
    Epg.update_tables (fun _ => none) ([c9Sec].map some ++ none :: [some c9Sec])
      = ((fun _ => none : ScheduleMap), UpdateTablesOutcome.parse_error) :=
  c9_parse_error_aborts (fun _ => none) [c9Sec] [some c9Sec] (fun _ => none) rfl

/-- Folding over a flattened map equals the nested fold over the index list. -/
theorem foldl_flatten_map {ι α β : Type} (g : ι → List α) (f : β → α → β) :
    ∀ (l : List ι) (b : β),
      ((l.map g).flatten).foldl f b = l.foldl (fun acc i => (g i).foldl f acc) b := by
  intro l
  induction l with
  | nil => intro b; rfl
  | cons i tl ih =>
    intro b
    rw [List.map_cons, List.flatten_cons, List.foldl_append, List.foldl_cons, ih]

/-- A segment's program fold is the event fold over its traversal order. -/
theorem EpgSegment.collect_programs_eq_segment
    (seg : EpgSegment) (sched_id : EpgScheduleId) (m : ProgramMap) :
    seg.collect_epg_programs sched_id m
      = seg.event_list.foldl (Epg.apply_event sched_id.sid sched_id.nid) m := by
  unfold EpgSegment.collect_epg_programs EpgSegment.event_list
  rw [foldl_flatten_map]
  congr 1
  funext acc i
  cases h : seg.sections i with
  | none => rfl
  | some sec => rfl

/-- A table's program fold is the event fold over its traversal order. -/
theorem EpgTable.collect_programs_eq_table
    (t : EpgTable) (sched_id : EpgScheduleId) (m : ProgramMap) :
    t.collect_epg_programs sched_id m
      = t.event_list.foldl (Epg.apply_event sched_id.sid sched_id.nid) m := by
  unfold EpgTable.collect_epg_programs EpgTable.event_list
  rw [foldl_flatten_map]
  congr 1
  funext acc i
  exact EpgSegment.collect_programs_eq_segment (t.segments i) sched_id acc

/-- Pointwise equal step functions fold equally. -/
theorem foldl_congr_fun {I B : Type} (f g : B → I → B) (h : ∀ b i, f b i = g b i) :
    ∀ (l : List I) (b : B), l.foldl f b = l.foldl g b := by
  intro l
  induction l with
  | nil => intro b; rfl
  | cons i tl ih =>
    intro b
    rw [List.foldl_cons, List.foldl_cons, h, ih]

/-- A schedule's program fold is the event fold over its traversal order:
overnight events first, then tables 0..31, segments 0..31, slots 0..7,
events in stored order. -/
theorem EpgSchedule.collect_programs_eq_schedule
    (sched : EpgSchedule) (sched_id : EpgScheduleId) (m : ProgramMap) :
    sched.collect_epg_programs sched_id m
      = sched.event_list.foldl (Epg.apply_event sched_id.sid sched_id.nid) m := by
  unfold EpgSchedule.collect_epg_programs EpgSchedule.event_list
  rw [List.foldl_append, foldl_flatten_map]
  refine foldl_congr_fun _ _ (fun b i => ?_) (List.finRange 32) _
  cases h : sched.tables i with
  | none => rfl
  | some t => exact EpgTable.collect_programs_eq_table t sched_id b

/-- The descriptor loop of `ProgramModel::update` never touches `start_at`,
`duration` or `is_free`. -/
theorem ProgramModel.foldl_apply_desc_keeps :
    ∀ (descs : List EitDescriptor) (q : ProgramModel),
      (descs.foldl ProgramModel.apply_desc q).start_at = q.start_at ∧
      (descs.foldl ProgramModel.apply_desc q).duration = q.duration ∧
      (descs.foldl ProgramModel.apply_desc q).is_free = q.is_free := by
  intro descs
  induction descs with
  | nil => intro q; exact ⟨rfl, rfl, rfl⟩
  | cons d tl ih =>
    intro q
    rw [List.foldl_cons]
    refine ⟨?_, ?_, ?_⟩
    · rw [(ih (q.apply_desc d)).1]
      cases d <;> rfl
    · rw [(ih (q.apply_desc d)).2.1]
      cases d <;> rfl
    · rw [(ih (q.apply_desc d)).2.2]
      cases d <;> rfl

/-- `ProgramModel::update` always overwrites `start_at`, `duration` and
`is_free` from the event, whatever the descriptors are. -/
theorem ProgramModel.update_overwrites (p : ProgramModel) (e : EitEvent) :
    (p.update e).start_at = e.start_time ∧
    (p.update e).duration = e.duration ∧
    (p.update e).is_free = !e.scrambled := by
  unfold ProgramModel.update
  exact ProgramModel.foldl_apply_desc_keeps e.descriptors _

/-- Unfolding equation for `Epg.apply_event` at a key. -/
theorem Epg.apply_event_eq (sid nid : Nat) (m : ProgramMap) (e : EitEvent) (k : Nat) :
    Epg.apply_event sid nid m e k =
      if k = ProgramModel.make_id e.event_id.val sid nid then
        some (((m (ProgramModel.make_id e.event_id.val sid nid)).getD
          (ProgramModel.new e.event_id.val sid nid)).update e)
      else m k :=
  rfl

/-- After the event fold, the entry of a key carries the always-overwritten
fields of the last visited event addressing it. -/
theorem foldl_apply_event_last (sid nid : Nat) :
    ∀ (evs : List EitEvent) (m : ProgramMap) (k : Nat) (eL : EitEvent),
      (evs.filter
        (fun e => decide (ProgramModel.make_id e.event_id.val sid nid = k))).getLast?
        = some eL →
      ∃ p, (evs.foldl (Epg.apply_event sid nid) m) k = some p ∧
        p.start_at = eL.start_time ∧ p.duration = eL.duration ∧
        p.is_free = !eL.scrambled := by
  intro evs
  induction evs using List.reverseRecOn with
  | nil =>
    intro m k eL h
    exact Option.noConfusion h
  | append_singleton l e ih =>
    intro m k eL h
    rw [List.filter_append] at h
    rw [List.foldl_append, List.foldl_cons, List.foldl_nil]
    by_cases hkey : ProgramModel.make_id e.event_id.val sid nid = k
    · have hfe : List.filter
          (fun x => decide (ProgramModel.make_id x.event_id.val sid nid = k)) [e] = [e] := by
        simp [List.filter_singleton, hkey]
      rw [hfe, List.getLast?_concat] at h
      injection h with h
      subst h
      rw [Epg.apply_event_eq, if_pos hkey.symm]
      exact ⟨_, rfl, (ProgramModel.update_overwrites _ e).1,
        (ProgramModel.update_overwrites _ e).2.1,
        (ProgramModel.update_overwrites _ e).2.2⟩
    · have hfe : List.filter
          (fun x => decide (ProgramModel.make_id x.event_id.val sid nid = k)) [e] = [] := by
        simp [List.filter_singleton, hkey]
      rw [hfe, List.append_nil] at h
      rw [Epg.apply_event_eq, if_neg (fun hc => hkey hc.symm)]
      exact ih m k eL h

/-- Claim C7: `collect_epg_programs` is exactly the fold of the program map
over the traversal order overnight events, tables 0..31, segments 0..31,
section slots 0..7, events in stored order; each visit overwrites the
program's always-written fields, so the last visited event of a ProgramKey
wins, and an overnight event is superseded by any later section event with a
colliding id. -/
theorem c7_fold_order_last_wins (sched : EpgSchedule) (sched_id : EpgScheduleId)
    (programs : ProgramMap) :
    sched.collect_epg_programs sched_id programs
      = sched.event_list.foldl (Epg.apply_event sched_id.sid sched_id.nid) programs ∧
    ∀ (k : Nat) (eL : EitEvent),
      (sched.event_list.filter
        (fun e =>
          decide (ProgramModel.make_id e.event_id.val sched_id.sid sched_id.nid = k))).getLast?
        = some eL →
      ∃ p, sched.collect_epg_programs sched_id programs k = some p ∧
        p.start_at = eL.start_time ∧ p.duration = eL.duration ∧
        p.is_free = !eL.scrambled := by
  refine ⟨EpgSchedule.collect_programs_eq_schedule sched sched_id programs, ?_⟩
  intro k eL h
  rw [EpgSchedule.collect_programs_eq_schedule]
  exact foldl_apply_event_last sched_id.sid sched_id.nid sched.event_list programs k eL h

/-- Witness for claim C7: an overnight event and a later section event share
event id 2; the folded program carries the section event's start and
duration. -/
theorem c7_fold_order_last_wins_witness :
    ∃ p, schedCollide.collect_epg_programs testScheduleId (fun _ => none)
        (ProgramModel.make_id 2 3 1) = some p ∧
      p.start_at = eventLate.start_time ∧ p.duration = eventLate.duration ∧
      p.is_free = !eventLate.scrambled :=
  (c7_fold_order_last_wins schedCollide testScheduleId (fun _ => none)).2
    (ProgramModel.make_id 2 3 1) eventLate (by decide)
